import Mathlib

/-!
Verification development for the knowledge-sync reconciliation engine of the
open-webui knowledge-sync repository (`knowledge-sync/sync_knowledge.py`).

The Python code is shallowly embedded as executable Lean functions.  Stateful
pieces (the in-memory cache, the remote knowledge store) are made explicit:

* Python dicts become association lists over `String` keys (`alLookup`,
  `alInsert`, `alErase`), matching dict `get` / assignment / `del`.
* The remote HTTP service is an oracle `RemoteEnv` recording the responses the
  service would give to each request of one sync pass (collection listing,
  per-collection file listing, upload results keyed by uploaded file name,
  attach outcomes keyed by uploaded file id, detach outcomes).
* Every network mutation the code issues is recorded in an explicit trace of
  `RemoteOp` values; read-only requests (collection/file listings) are not
  mutations and are not traced.
* Two instrumentation fields that do not feed back into any decision of the
  embedded code are threaded through: `post`, the remote file listing as it
  stands after the issued mutations are applied by the remote store (attach
  adds the file under its name, a successful detach removes it), and `ok`,
  which records that every per-file action and every detach succeeded.
-/

namespace KnowledgeSync

/-- Association-list lookup, the embedding of Python dict `.get(key)`. -/
def alLookup {α : Type} : List (String × α) → String → Option α
  | [], _ => none
  | (k, v) :: rest, key => if k = key then some v else alLookup rest key

/-- Association-list insert or replace, the embedding of dict assignment. -/
def alInsert {α : Type} : List (String × α) → String → α → List (String × α)
  | [], key, v => [(key, v)]
  | (k, w) :: rest, key, v =>
    if k = key then (key, v) :: rest else (k, w) :: alInsert rest key v

/-- Association-list erase, the embedding of dict `del` (a dict holds a key
at most once; erasing removes every pair with that key). -/
def alErase {α : Type} : List (String × α) → String → List (String × α)
  | [], _ => []
  | (k, w) :: rest, key =>
    if k = key then alErase rest key else (k, w) :: alErase rest key

/-- Python truthiness of an optional string: `None` and `""` are falsy.
Used for `if not kb_id`, `if not file_id`, `and cached_file_id`. -/
def pyTruthy : Option String → Bool
  | none => false
  | some s => !s.isEmpty

/-- One resolved source file as seen by `sync_collection`:
`name` is `file_path.name`, `fileHash` is `_file_hash(file_path)` (the
16-hex-character truncated sha256 stored in the cache, line 352), and
`contentHash` is the full sha256 hexdigest computed at line 367 and used for
duplicate-vector purging. -/
structure FileInfo where
  name : String
  fileHash : String
  contentHash : String
deriving DecidableEq, Repr

/-- One cache entry value `{"hash": ..., "file_id": ...}` (line 382). -/
structure CacheEntry where
  hash : String
  file_id : String
deriving DecidableEq, Repr

/-- Per-collection cache: file name keyed, `self.cache[collection_name]`. -/
abbrev CollectionCache := List (String × CacheEntry)

/-- The whole cache `self.cache`: collection-name keyed. -/
abbrev Cache := List (String × CollectionCache)

/-- A remote file listing, `_get_knowledge_files`: file name to file id. -/
abbrev Listing := List (String × String)

/-- The outcome of a single attach request
(`POST /api/v1/knowledge/{kb}/file/add`): success, the HTTP-400
duplicate-content refusal, or any other error. -/
inductive AttachOutcome where
  | success
  | duplicate
  | otherError
deriving DecidableEq, Repr

/-- Oracle for the remote service's responses during one sync pass.
`uploadResult` is keyed by the uploaded file's name, `attachFirst` and
`attachRetry` by the uploaded file id (the retry is the second attach of the
same id issued inside `_add_file_to_knowledge`), `detachResult` by the
detached file id. -/
structure RemoteEnv where
  collections : List (String × String)
  createResult : Option String
  listing : Listing
  uploadResult : String → Option String
  attachFirst : String → AttachOutcome
  attachRetry : String → Bool
  detachResult : String → Bool

/-- A remote mutation issued by the engine.  Read-only listing requests are
not mutations and are not recorded. -/
inductive RemoteOp where
  | createKB (name : String)
  | upload (name : String)
  | attach (kbId fileId : String)
  | detach (kbId fileId : String)
  | purge (hash : String)
deriving DecidableEq, Repr

/-- `_clear_qdrant_duplicates` (lines 225-247): best-effort deletion of vector
records matching a content hash.  The two backing-collection HTTP deletes are
abstracted into one `purge` trace entry; the Python function swallows every
error and always returns `True`. -/
def clearQdrantDuplicates (h : String) : Bool × List RemoteOp :=
  (true, [RemoteOp.purge h])

/-- `_add_file_to_knowledge` (lines 249-282): attach an uploaded file to a
knowledge base.  On a duplicate-content refusal, if a truthy `file_hash` was
supplied, purge duplicate vectors and retry the attach exactly once; the
result of the retry is final.  On any other error, fail.  Returns the success
flag and the trace of issued mutations. -/
def addFileToKnowledge (env : RemoteEnv) (kbId fileId : String)
    (fileHash : Option String) : Bool × List RemoteOp :=
  match env.attachFirst fileId with
  | AttachOutcome.success => (true, [RemoteOp.attach kbId fileId])
  | AttachOutcome.duplicate =>
    match fileHash with
    | some h =>
      if h.isEmpty then (false, [RemoteOp.attach kbId fileId])
      else
        let pu := clearQdrantDuplicates h
        (env.attachRetry fileId,
          RemoteOp.attach kbId fileId :: pu.2 ++ [RemoteOp.attach kbId fileId])
    | none => (false, [RemoteOp.attach kbId fileId])
  | AttachOutcome.otherError => (false, [RemoteOp.attach kbId fileId])

/-- Success flag of `addFileToKnowledge` without the trace; the flag does not
depend on the knowledge-base id. -/
def attachOk (env : RemoteEnv) (fileId : String) (fileHash : Option String) : Bool :=
  match env.attachFirst fileId with
  | AttachOutcome.success => true
  | AttachOutcome.duplicate =>
    match fileHash with
    | some h => !h.isEmpty && env.attachRetry fileId
    | none => false
  | AttachOutcome.otherError => false

/-- The skip condition of `sync_collection` (line 359):
`not force and cached_hash == file_hash and cached_file_id and filename in
existing_files`. -/
def skipCond (force : Bool) (cc : CollectionCache) (existing : Listing)
    (f : FileInfo) : Bool :=
  !force &&
    (match alLookup cc f.name with
     | some e => decide (e.hash = f.fileHash) && !e.file_id.isEmpty
     | none => false) &&
  (alLookup existing f.name).isSome

/-- Result of processing one resolved file, plus the two instrumentation
fields `post` (remote listing after the issued mutations) and `ok`. -/
structure StepOut where
  cc : CollectionCache
  post : Listing
  added : Nat
  updated : Nat
  ops : List RemoteOp
  ok : Bool

/-- The per-file body of the loop at lines 350-393 of `sync_collection`.
Skip when the skip condition holds; in dry-run mode only count against the
(empty) listing snapshot; otherwise purge duplicate vectors pre-emptively,
upload, and on a truthy uploaded id attach via `addFileToKnowledge`; on
confirmed attachment write the cache entry and count as added or updated
according to the stale listing snapshot. -/
def processFile (env : RemoteEnv) (kbId : String) (force dryRun : Bool)
    (existing : Listing) (cc : CollectionCache) (post : Listing)
    (f : FileInfo) : StepOut :=
  if skipCond force cc existing f then
    ⟨cc, post, 0, 0, [], true⟩
  else if dryRun then
    if (alLookup existing f.name).isSome then ⟨cc, post, 0, 1, [], true⟩
    else ⟨cc, post, 1, 0, [], true⟩
  else
    let pre := clearQdrantDuplicates f.contentHash
    match env.uploadResult f.name with
    | none => ⟨cc, post, 0, 0, pre.2 ++ [RemoteOp.upload f.name], false⟩
    | some fid =>
      if fid.isEmpty then
        ⟨cc, post, 0, 0, pre.2 ++ [RemoteOp.upload f.name], false⟩
      else
        let ar := addFileToKnowledge env kbId fid (some f.contentHash)
        let ops := pre.2 ++ RemoteOp.upload f.name :: ar.2
        if ar.1 then
          let cc' := alInsert cc f.name ⟨f.fileHash, fid⟩
          let post' := alInsert post f.name fid
          if (alLookup existing f.name).isSome then ⟨cc', post', 0, 1, ops, true⟩
          else ⟨cc', post', 1, 0, ops, true⟩
        else ⟨cc, post, 0, 0, ops, false⟩

/-- Sequential processing of the resolved file list (the `for file_path in
files_to_sync` loop). -/
def processFiles (env : RemoteEnv) (kbId : String) (force dryRun : Bool)
    (existing : Listing) :
    CollectionCache → Listing → List FileInfo → StepOut
  | cc, post, [] => ⟨cc, post, 0, 0, [], true⟩
  | cc, post, f :: fs =>
    let s := processFile env kbId force dryRun existing cc post f
    let r := processFiles env kbId force dryRun existing s.cc s.post fs
    ⟨r.cc, r.post, s.added + r.added, s.updated + r.updated,
      s.ops ++ r.ops, s.ok && r.ok⟩

/-- Result of the trailing removal scan. -/
structure RemOut where
  cc : CollectionCache
  post : Listing
  removed : Nat
  ops : List RemoteOp
  ok : Bool

/-- The removal scan at lines 395-403: every listed file name absent from the
resolved set is detached (live runs only; the call's result is ignored), its
cache entry is deleted unconditionally, and it is counted as removed. -/
def removalScan (env : RemoteEnv) (kbId : String) (dryRun : Bool)
    (synced : List String) :
    CollectionCache → Listing → Listing → RemOut
  | cc, post, [] => ⟨cc, post, 0, [], true⟩
  | cc, post, (n, fid) :: rest =>
    if n ∈ synced then removalScan env kbId dryRun synced cc post rest
    else
      let detOps : List RemoteOp :=
        if dryRun then [] else [RemoteOp.detach kbId fid]
      let detOk := if dryRun then true else env.detachResult fid
      let post' :=
        if !dryRun && env.detachResult fid then alErase post n else post
      let cc' := alErase cc n
      let r := removalScan env kbId dryRun synced cc' post' rest
      ⟨r.cc, r.post, 1 + r.removed, detOps ++ r.ops, detOk && r.ok⟩

/-- Overall result of `sync_collection`: the `(added, updated, removed)`
counts, the in-memory cache afterwards, the trace of issued remote mutations,
whether the cache file was persisted (`_save_cache`, line 406), and the two
instrumentation fields. -/
structure SyncResult where
  added : Nat
  updated : Nat
  removed : Nat
  cache : Cache
  ops : List RemoteOp
  persisted : Bool
  post : Listing
  ok : Bool
deriving DecidableEq, Repr

/-- Lines 337-408 of `sync_collection`, after a knowledge-base id is settled:
fetch the listing snapshot (empty in dry-run, line 338), ensure the
collection's cache dict, run the per-file loop and the removal scan, write
the per-collection cache back, and persist unless dry-run. -/
def syncBody (env : RemoteEnv) (collectionName kbId : String)
    (filesToSync : List FileInfo) (cache : Cache) (force dryRun : Bool) :
    SyncResult :=
  let existing : Listing := if dryRun then [] else env.listing
  let cc0 : CollectionCache := (alLookup cache collectionName).getD []
  let p1 := processFiles env kbId force dryRun existing cc0 env.listing filesToSync
  let p2 := removalScan env kbId dryRun (filesToSync.map (·.name))
    p1.cc p1.post existing
  { added := p1.added, updated := p1.updated, removed := p2.removed,
    cache := alInsert cache collectionName p2.cc,
    ops := p1.ops ++ p2.ops, persisted := !dryRun,
    post := p2.post, ok := p1.ok && p2.ok }

/-- `sync_collection` (lines 312-408) on an already-resolved file list:
return `(0,0,0)` at once when the list is empty; otherwise look the
collection up by name, creating it when absent (live runs; dry-run uses the
placeholder id) and aborting with zero counts when creation fails; then run
`syncBody`.  A failed creation marks `ok := false`. -/
def syncCollectionResolved (env : RemoteEnv) (collectionName : String)
    (filesToSync : List FileInfo) (cache : Cache) (force dryRun : Bool) :
    SyncResult :=
  if filesToSync.isEmpty then
    { added := 0, updated := 0, removed := 0, cache := cache, ops := [],
      persisted := false, post := env.listing, ok := true }
  else
    let kbOpt := alLookup env.collections collectionName
    if pyTruthy kbOpt then
      syncBody env collectionName (kbOpt.getD "") filesToSync cache force dryRun
    else if dryRun then
      syncBody env collectionName "dry-run-id" filesToSync cache force dryRun
    else if pyTruthy env.createResult then
      let r := syncBody env collectionName (env.createResult.getD "")
        filesToSync cache force dryRun
      { r with ops := RemoteOp.createKB collectionName :: r.ops }
    else
      { added := 0, updated := 0, removed := 0, cache := cache,
        ops := [RemoteOp.createKB collectionName], persisted := false,
        post := env.listing, ok := false }

/-- Environment for the Definition Parser: the configuration (accepted
extensions, exclusion glob patterns, the raw `PATH_PREFIX_MAP` value) together
with oracles for the filesystem primitives and libraries the parser calls
(`Path.exists`, `is_symlink`, `resolve`, `is_file`, `is_dir`, `rglob`,
`is_file` on an rglob item, `path.suffix.lower()`, `fnmatch.fnmatch`), and
for the attributes `sync_collection` later derives per resolved path
(`path.name`, `_file_hash`, the full sha256 hexdigest of the content). -/
structure ParseEnv where
  prefixMap : String
  extensions : List String
  excludes : List String
  pathExists : String → Bool
  isSymlink : String → Bool
  resolveSymlink : String → String
  isFile : String → Bool
  isDir : String → Bool
  rglob : String → List String
  itemIsFile : String → Bool
  suffix : String → String
  fnmatch : String → String → Bool
  baseName : String → String
  fileHashOf : String → String
  contentHashOf : String → String

/-- A Python whitespace character as far as `str.strip` and bare `split` are
concerned (the ASCII ones a definition document can contain). -/
def isSpaceChar (c : Char) : Bool :=
  c = ' ' || c = '\t' || c = '\n' || c = '\r'

/-- `str.strip()` on the character list: drop whitespace from both ends. -/
def stripChars (l : List Char) : List Char :=
  ((l.dropWhile isSpaceChar).reverse.dropWhile isSpaceChar).reverse

/-- `str.strip()`. -/
def pyStrip (s : String) : String := String.mk (stripChars s.data)

/-- `str.splitlines()` on the character list, for newline-delimited
documents; a trailing newline yields a trailing empty line, which every
caller discards as an empty line. -/
def splitLinesAux : List Char → List (List Char)
  | [] => [[]]
  | c :: rest =>
    if c = '\n' then [] :: splitLinesAux rest
    else
      match splitLinesAux rest with
      | [] => [[c]]
      | l :: ls => (c :: l) :: ls

/-- `line.startswith("#")`: the first character is the comment marker. -/
def startsWithHash (s : String) : Bool :=
  match s.data with
  | [] => false
  | c :: _ => c = '#'

/-- `_translate_path` (lines 118-125): when `PATH_PREFIX_MAP` is nonempty and
holds a colon, split it at the first colon and, when the path starts with the
first part, replace that first occurrence by the second part (the
short-circuit of Python `and` is written as nested conditionals). -/
def translatePath (pm : String) (p : String) : String :=
  if pm.isEmpty then p
  else if (pm.splitOn ":").length < 2 then p
  else
    let parts := pm.splitOn ":"
    let fromP := parts.headD ""
    let toP := String.intercalate ":" parts.tail
    if fromP.isPrefixOf p then toP ++ p.drop fromP.length else p

/-- `_is_excluded` (lines 110-116): the full path string matches some
exclusion glob pattern. -/
def isExcluded (env : ParseEnv) (p : String) : Bool :=
  env.excludes.any (fun pat => env.fnmatch p pat)

/-- `_resolve_path` (lines 127-151): strip, translate the prefix, resolve a
symlink, then return the file itself (subject to the extension and exclusion
filters), the recursive directory contents (same filters), or nothing with a
warning when the path does not exist. -/
def resolvePath (env : ParseEnv) (pathStr : String) : List String :=
  let translated := translatePath env.prefixMap (pyStrip pathStr)
  let path :=
    if env.isSymlink translated then env.resolveSymlink translated
    else translated
  if !env.pathExists path then []
  else if env.isFile path then
    if env.extensions.contains (env.suffix path) && !isExcluded env path then
      [path]
    else []
  else if env.isDir path then
    (env.rglob path).filter (fun item =>
      env.itemIsFile item && env.extensions.contains (env.suffix item) &&
        !isExcluded env item)
  else []

/-- The stripped lines of a definition document (`content.splitlines()`,
modelled as splitting on the newline character, each line stripped). -/
def defLines (content : String) : List String :=
  ((splitLinesAux content.data).map String.mk).map pyStrip

/-- `_parse_definition` (lines 153-167): ignore empty lines and lines that
start with the comment marker; resolve every other line and append the
resolutions in order (`files.extend(resolved)`). -/
def parseDefinition (env : ParseEnv) (content : String) : List String :=
  (defLines content).foldl
    (fun acc line =>
      if line.isEmpty || startsWithHash line then acc
      else acc ++ resolvePath env line) []

/-- The `FileInfo` attributes `sync_collection` reads off one resolved path. -/
def resolvedFileInfo (env : ParseEnv) (p : String) : FileInfo :=
  { name := env.baseName p, fileHash := env.fileHashOf p,
    contentHash := env.contentHashOf p }

/-- Full `sync_collection` (lines 312-408): parse the definition document
into the resolved file list (line 318) and reconcile it. -/
def syncCollection (penv : ParseEnv) (env : RemoteEnv)
    (collectionName : String) (defText : String) (cache : Cache)
    (force dryRun : Bool) : SyncResult :=
  let filesToSync := (parseDefinition penv defText).map (resolvedFileInfo penv)
  syncCollectionResolved env collectionName filesToSync cache force dryRun

/-- `_load_cache` (lines 86-95): when the cache file exists, read and parse
it inside a try block, falling back to the empty cache with a warning on any
failure; when absent, start empty.  The read-plus-`json.loads` step is the
oracle `readParse`; the returned flag records whether the warning was
printed. -/
def loadCache (cacheFileExists : Bool) (readParse : Except String Cache) :
    Cache × Bool :=
  if cacheFileExists then
    match readParse with
    | Except.ok c => (c, false)
    | Except.error _ => ([], true)
  else ([], false)

/-- Fixture: remote state whose collection `col` already holds `a.md` under
file id `f1`. -/
def envA : RemoteEnv :=
  { collections := [("col", "kb1")], createResult := some "kbNew",
    listing := [("a.md", "f1")],
    uploadResult := fun n => if n = "a.md" then some "fidA" else none,
    attachFirst := fun _ => AttachOutcome.success,
    attachRetry := fun _ => true,
    detachResult := fun _ => true }

/-- Fixture: cache recording `a.md` as synced at hash `h1`, id `f1`. -/
def cacheA : Cache := [("col", [("a.md", ⟨"h1", "f1"⟩)])]

/-- Fixture: resolved file `a.md` with hashes matching `cacheA`. -/
def fA : FileInfo := ⟨"a.md", "h1", "H1"⟩

/-- Fixture: remote state where every mutation succeeds and the collection
listing starts empty. -/
def envB : RemoteEnv :=
  { collections := [("col", "kb1")], createResult := none,
    listing := [],
    uploadResult := fun n => if n = "a.md" then some "fid1" else none,
    attachFirst := fun _ => AttachOutcome.success,
    attachRetry := fun _ => true,
    detachResult := fun _ => true }

/-- Fixture: first of two same-named resolved files with different content. -/
def f1B : FileInfo := ⟨"a.md", "h1", "H1"⟩

/-- Fixture: second same-named resolved file with different content. -/
def f2B : FileInfo := ⟨"a.md", "h2", "H2"⟩

/-- Fixture: the remote state after the first `envB` run: `a.md` attached
under `fid1`; nothing else changed. -/
def envB2 : RemoteEnv := { envB with listing := [("a.md", "fid1")] }

/-- Fixture: remote state listing a stale file `gone.md` whose detach call
fails. -/
def envC3 : RemoteEnv :=
  { collections := [("col", "kb1")], createResult := none,
    listing := [("gone.md", "fidg")],
    uploadResult := fun n => if n = "a.md" then some "fidA" else none,
    attachFirst := fun _ => AttachOutcome.success,
    attachRetry := fun _ => true,
    detachResult := fun _ => false }

/-- Fixture: cache still holding the stale `gone.md` entry. -/
def cacheC3 : Cache := [("col", [("gone.md", ⟨"hg", "fidg"⟩)])]

/-- Fixture: remote state whose first attach of any file reports the
duplicate-content condition and whose retry succeeds. -/
def envD : RemoteEnv :=
  { collections := [("col", "kb1")], createResult := none,
    listing := [],
    uploadResult := fun n => if n = "a.md" then some "fidA" else none,
    attachFirst := fun _ => AttachOutcome.duplicate,
    attachRetry := fun _ => true,
    detachResult := fun _ => true }

/-- Fixture: remote state with no collection named `col` and failing
collection creation. -/
def envC8 : RemoteEnv :=
  { collections := [], createResult := none,
    listing := [],
    uploadResult := fun _ => none,
    attachFirst := fun _ => AttachOutcome.success,
    attachRetry := fun _ => true,
    detachResult := fun _ => true }

/-- Fixture: a one-file filesystem containing only `/a/x.md`. -/
def penvX : ParseEnv :=
  { prefixMap := "", extensions := [".md"], excludes := [],
    pathExists := fun p => p == "/a/x.md",
    isSymlink := fun _ => false, resolveSymlink := id,
    isFile := fun p => p == "/a/x.md", isDir := fun _ => false,
    rglob := fun _ => [], itemIsFile := fun _ => false,
    suffix := fun _ => ".md", fnmatch := fun _ _ => false,
    baseName := fun _ => "x.md", fileHashOf := fun _ => "h",
    contentHashOf := fun _ => "H" }

/-- A file name has a fully synced cache entry and is present in the remote
listing: exactly what the skip condition of the next pass needs. -/
def goodEntry (cc : CollectionCache) (post : Listing) (f : FileInfo) : Prop :=
  (∃ e, alLookup cc f.name = some e ∧ e.hash = f.fileHash ∧ e.file_id ≠ "") ∧
    (alLookup post f.name).isSome = true

/-- No two resolved files share a file name while disagreeing on content
hash (file-name collisions with equal content are allowed). -/
def nameConsistent (files : List FileInfo) : Prop :=
  ∀ f ∈ files, ∀ g ∈ files, f.name = g.name → f.fileHash = g.fileHash

theorem alLookup_alInsert {α : Type} (l : List (String × α)) (k n : String)
    (v : α) :
    alLookup (alInsert l k v) n = if n = k then some v else alLookup l n := by
  induction l with
  | nil =>
    simp only [alInsert, alLookup]
    by_cases h : n = k
    · subst h; simp
    · rw [if_neg (fun hh => h hh.symm), if_neg h]
  | cons hd tl ih =>
    obtain ⟨a, b⟩ := hd
    by_cases hak : a = k
    · subst hak
      simp only [alInsert, if_pos rfl, alLookup]
      by_cases hn : a = n
      · subst hn; simp
      · rw [if_neg hn, if_neg (fun hh => hn hh.symm), if_neg hn]
    · simp only [alInsert, if_neg hak, alLookup, ih]
      by_cases han : a = n
      · subst han
        rw [if_pos rfl, if_neg (fun hh => hak (by rw [hh])), if_pos rfl]
      · rw [if_neg han, if_neg han]

theorem alLookup_alErase {α : Type} (l : List (String × α)) (k n : String) :
    alLookup (alErase l k) n = if n = k then none else alLookup l n := by
  induction l with
  | nil => simp [alErase, alLookup]
  | cons hd tl ih =>
    obtain ⟨a, b⟩ := hd
    by_cases hak : a = k
    · subst hak
      have he : alErase ((a, b) :: tl) a = alErase tl a := by
        simp [alErase]
      rw [he, ih]
      by_cases hn : n = a
      · rw [if_pos hn, if_pos hn]
      · rw [if_neg hn, if_neg hn]
        simp only [alLookup]
        rw [if_neg (fun hh => hn hh.symm)]
    · have he : alErase ((a, b) :: tl) k = (a, b) :: alErase tl k := by
        simp [alErase, hak]
      rw [he]
      simp only [alLookup]
      rw [ih]
      by_cases han : a = n
      · subst han
        rw [if_pos rfl, if_neg (fun hh => hak (by rw [hh])), if_pos rfl]
      · rw [if_neg han, if_neg han]

theorem alLookup_isSome_of_mem {α : Type} {l : List (String × α)}
    {k : String} {v : α} (h : (k, v) ∈ l) :
    (alLookup l k).isSome = true := by
  induction l with
  | nil => cases h
  | cons hd tl ih =>
    obtain ⟨a, b⟩ := hd
    rcases List.mem_cons.mp h with h1 | h1
    · cases h1
      simp [alLookup]
    · simp only [alLookup]
      by_cases hak : a = k
      · simp [hak]
      · rw [if_neg hak]; exact ih h1

theorem mem_of_alLookup_isSome {α : Type} {l : List (String × α)}
    {k : String} (h : (alLookup l k).isSome = true) :
    ∃ v, (k, v) ∈ l := by
  induction l with
  | nil => simp [alLookup] at h
  | cons hd tl ih =>
    obtain ⟨a, b⟩ := hd
    simp only [alLookup] at h
    by_cases hak : a = k
    · exact ⟨b, by simp [hak]⟩
    · rw [if_neg hak] at h
      obtain ⟨v, hv⟩ := ih h
      exact ⟨v, List.mem_cons_of_mem _ hv⟩

theorem addFileToKnowledge_fst (env : RemoteEnv) (kbId fid : String)
    (h : Option String) :
    (addFileToKnowledge env kbId fid h).1 = attachOk env fid h := by
  unfold addFileToKnowledge attachOk
  rcases hA : env.attachFirst fid <;> simp [hA]
  rcases h with _ | s
  · rfl
  · by_cases he : s.isEmpty <;> simp [he]

theorem processFile_skip (env : RemoteEnv) (kbId : String)
    (force dryRun : Bool) (existing : Listing) (cc : CollectionCache)
    (post : Listing) (f : FileInfo)
    (h : skipCond force cc existing f = true) :
    processFile env kbId force dryRun existing cc post f =
      ⟨cc, post, 0, 0, [], true⟩ := by
  simp [processFile, h]

theorem processFile_shape (env : RemoteEnv) (kbId : String)
    (force dryRun : Bool) (existing : Listing) (cc : CollectionCache)
    (post : Listing) (f : FileInfo) :
    ((processFile env kbId force dryRun existing cc post f).cc = cc ∧
     (processFile env kbId force dryRun existing cc post f).post = post) ∨
    ∃ fid, env.uploadResult f.name = some fid ∧ fid ≠ "" ∧
      attachOk env fid (some f.contentHash) = true ∧
      (processFile env kbId force dryRun existing cc post f).cc =
        alInsert cc f.name ⟨f.fileHash, fid⟩ ∧
      (processFile env kbId force dryRun existing cc post f).post =
        alInsert post f.name fid := by
  by_cases hs : skipCond force cc existing f = true
  · left
    rw [processFile_skip env kbId force dryRun existing cc post f hs]
    exact ⟨rfl, rfl⟩
  · rw [processFile, if_neg hs]
    by_cases hd : dryRun = true
    · left
      rw [if_pos hd]
      by_cases hm : (alLookup existing f.name).isSome = true
      · rw [if_pos hm]; exact ⟨rfl, rfl⟩
      · rw [if_neg hm]; exact ⟨rfl, rfl⟩
    · rw [if_neg hd]
      rcases hup : env.uploadResult f.name with _ | fid
      · left; simp
      · simp only
        by_cases hemp : fid.isEmpty = true
        · left; rw [if_pos hemp]; exact ⟨rfl, rfl⟩
        · rw [if_neg hemp]
          by_cases har : (addFileToKnowledge env kbId fid (some f.contentHash)).1 = true
          · right
            refine ⟨fid, rfl, ?_, ?_, ?_⟩
            · exact fun hh => hemp ((String.isEmpty_iff fid).mpr hh)
            · rw [← addFileToKnowledge_fst env kbId]; exact har
            · rw [if_pos har]
              by_cases hm : (alLookup existing f.name).isSome = true
              · rw [if_pos hm]; exact ⟨rfl, rfl⟩
              · rw [if_neg hm]; exact ⟨rfl, rfl⟩
          · left; rw [if_neg har]; exact ⟨rfl, rfl⟩

theorem processFile_ok_shape (env : RemoteEnv) (kbId : String)
    (force : Bool) (existing : Listing) (cc : CollectionCache)
    (post : Listing) (f : FileInfo)
    (hs : skipCond force cc existing f = false)
    (hok : (processFile env kbId force false existing cc post f).ok = true) :
    ∃ fid, env.uploadResult f.name = some fid ∧ fid ≠ "" ∧
      attachOk env fid (some f.contentHash) = true ∧
      (processFile env kbId force false existing cc post f).cc =
        alInsert cc f.name ⟨f.fileHash, fid⟩ ∧
      (processFile env kbId force false existing cc post f).post =
        alInsert post f.name fid := by
  rw [processFile, if_neg (by simp [hs])] at hok ⊢
  rw [if_neg (by simp : ¬(false = true))] at hok ⊢
  revert hok
  rcases hup : env.uploadResult f.name with _ | fid <;> intro hok
  · simp at hok
  · dsimp only at hok ⊢
    by_cases hemp : fid.isEmpty = true
    · rw [if_pos hemp] at hok; simp at hok
    · rw [if_neg hemp] at hok ⊢
      by_cases har : (addFileToKnowledge env kbId fid (some f.contentHash)).1 = true
      · refine ⟨fid, rfl, ?_, ?_, ?_⟩
        · exact fun hh => hemp ((String.isEmpty_iff fid).mpr hh)
        · rw [← addFileToKnowledge_fst env kbId]; exact har
        · rw [if_pos har] at hok ⊢
          by_cases hm : (alLookup existing f.name).isSome = true
          · rw [if_pos hm]; exact ⟨rfl, rfl⟩
          · rw [if_neg hm]; exact ⟨rfl, rfl⟩
      · rw [if_neg har] at hok; simp at hok

theorem skipCond_iff (force : Bool) (cc : CollectionCache) (existing : Listing)
    (f : FileInfo) :
    skipCond force cc existing f = true ↔
      force = false ∧
      (∃ e, alLookup cc f.name = some e ∧ e.hash = f.fileHash ∧
        e.file_id ≠ "") ∧
      (alLookup existing f.name).isSome = true := by
  unfold skipCond
  rcases hl : alLookup cc f.name with _ | e
  · simp [hl]
  · have hb : (e.file_id.isEmpty = false) ↔ e.file_id ≠ "" := by
      constructor
      · intro h3 hh
        have := (String.isEmpty_iff e.file_id).mpr hh
        rw [h3] at this
        exact Bool.false_ne_true this
      · intro h3
        exact Bool.eq_false_iff.mpr
          (fun hh => h3 ((String.isEmpty_iff e.file_id).mp hh))
    simp only [hl]
    simp [Bool.and_eq_true, Bool.not_eq_true', decide_eq_true_iff]
    rw [hb]
    tauto

theorem processFiles_post_mono (env : RemoteEnv) (kbId : String)
    (force dryRun : Bool) (existing : Listing) (fs : List FileInfo)
    (cc : CollectionCache) (post : Listing) (n : String)
    (h : (alLookup post n).isSome = true) :
    (alLookup (processFiles env kbId force dryRun existing cc post fs).post
      n).isSome = true := by
  induction fs generalizing cc post with
  | nil => simpa [processFiles]
  | cons f fs ih =>
    dsimp only [processFiles]
    apply ih
    rcases processFile_shape env kbId force dryRun existing cc post f with
      ⟨_, h2⟩ | ⟨fid, _, _, _, _, h2⟩
    · rw [h2]; exact h
    · rw [h2, alLookup_alInsert]
      by_cases hn : n = f.name
      · simp [hn]
      · rw [if_neg hn]; exact h

theorem processFiles_goodEntry_pres (env : RemoteEnv) (kbId : String)
    (force dryRun : Bool) (existing : Listing) (fs : List FileInfo)
    (cc : CollectionCache) (post : Listing) (f : FileInfo)
    (hg : goodEntry cc post f)
    (hname : ∀ g ∈ fs, g.name = f.name → g.fileHash = f.fileHash) :
    goodEntry (processFiles env kbId force dryRun existing cc post fs).cc
      (processFiles env kbId force dryRun existing cc post fs).post f := by
  induction fs generalizing cc post with
  | nil => simpa [processFiles]
  | cons g gs ih =>
    dsimp only [processFiles]
    apply ih
    · rcases processFile_shape env kbId force dryRun existing cc post g with
        ⟨h1, h2⟩ | ⟨fid, _, hfid, _, h1, h2⟩
      · rw [h1, h2]; exact hg
      · rw [h1, h2]
        obtain ⟨⟨e, he, heh, hei⟩, hpost⟩ := hg
        constructor
        · by_cases hng : g.name = f.name
          · refine ⟨⟨g.fileHash, fid⟩, ?_, ?_, hfid⟩
            · rw [← hng, alLookup_alInsert, if_pos rfl]
            · exact hname g (List.mem_cons_self g gs) hng
          · refine ⟨e, ?_, heh, hei⟩
            rw [alLookup_alInsert, if_neg (fun hh => hng hh.symm)]
            exact he
        · rw [alLookup_alInsert]
          by_cases hng : f.name = g.name
          · simp [hng]
          · rw [if_neg hng]; exact hpost
    · exact fun g' hg' => hname g' (List.mem_cons_of_mem _ hg')

theorem processFiles_goodEntry (env : RemoteEnv) (kbId : String)
    (force : Bool) (existing : Listing) (fs : List FileInfo)
    (cc : CollectionCache) (post : Listing)
    (hexi : ∀ n, (alLookup existing n).isSome = true →
      (alLookup post n).isSome = true)
    (hok : (processFiles env kbId force false existing cc post fs).ok = true)
    (hname : nameConsistent fs) :
    ∀ f ∈ fs,
      goodEntry (processFiles env kbId force false existing cc post fs).cc
        (processFiles env kbId force false existing cc post fs).post f := by
  induction fs generalizing cc post with
  | nil => intro f hf; cases hf
  | cons g gs ih =>
    dsimp only [processFiles] at hok ⊢
    rw [Bool.and_eq_true] at hok
    obtain ⟨hok1, hok2⟩ := hok
    have hnamegs : nameConsistent gs := fun a ha b hb =>
      hname a (List.mem_cons_of_mem _ ha) b (List.mem_cons_of_mem _ hb)
    intro f hf
    rcases List.mem_cons.mp hf with rfl | hf'
    · by_cases hs : skipCond force cc existing f = true
      · rw [processFile_skip env kbId force false existing cc post f hs]
        have hgood : goodEntry cc post f := by
          obtain ⟨_, hentry, hmem⟩ := (skipCond_iff force cc existing f).mp hs
          exact ⟨hentry, hexi _ hmem⟩
        exact processFiles_goodEntry_pres env kbId force false existing gs cc
          post f hgood
          (fun g' hg' => hname g' (List.mem_cons_of_mem _ hg') f
            (List.mem_cons_self f gs))
      · have hs' : skipCond force cc existing f = false :=
          Bool.eq_false_iff.mpr hs
        obtain ⟨fid, hup, hfid, hatt, hcc, hpost⟩ :=
          processFile_ok_shape env kbId force existing cc post f hs' hok1
        have hgood : goodEntry
            (processFile env kbId force false existing cc post f).cc
            (processFile env kbId force false existing cc post f).post f := by
          rw [hcc, hpost]
          refine ⟨⟨⟨f.fileHash, fid⟩, ?_, rfl, hfid⟩, ?_⟩
          · rw [alLookup_alInsert, if_pos rfl]
          · rw [alLookup_alInsert, if_pos rfl]; rfl
        exact processFiles_goodEntry_pres env kbId force false existing gs _ _
          f hgood
          (fun g' hg' => hname g' (List.mem_cons_of_mem _ hg') f
            (List.mem_cons_self f gs))
    · have hexi' : ∀ n, (alLookup existing n).isSome = true →
          (alLookup (processFile env kbId force false existing cc post g).post
            n).isSome = true := by
        intro n hn
        rcases processFile_shape env kbId force false existing cc post g with
          ⟨_, h2⟩ | ⟨fid, _, _, _, _, h2⟩
        · rw [h2]; exact hexi n hn
        · rw [h2, alLookup_alInsert]
          by_cases hng : n = g.name
          · simp [hng]
          · rw [if_neg hng]; exact hexi n hn
      exact ih _ _ hexi' hok2 hnamegs f hf'

theorem processFiles_post_keys (env : RemoteEnv) (kbId : String)
    (force dryRun : Bool) (existing : Listing) (fs : List FileInfo)
    (cc : CollectionCache) (post : Listing) (n : String)
    (h : (alLookup (processFiles env kbId force dryRun existing cc post
      fs).post n).isSome = true) :
    (alLookup post n).isSome = true ∨ n ∈ fs.map (·.name) := by
  induction fs generalizing cc post with
  | nil => dsimp only [processFiles] at h; exact Or.inl h
  | cons g gs ih =>
    dsimp only [processFiles] at h
    rcases ih _ _ h with h1 | h1
    · rcases processFile_shape env kbId force dryRun existing cc post g with
        ⟨_, h2⟩ | ⟨fid, _, _, _, _, h2⟩
      · rw [h2] at h1; exact Or.inl h1
      · rw [h2, alLookup_alInsert] at h1
        by_cases hng : n = g.name
        · right; simp [hng]
        · rw [if_neg hng] at h1; exact Or.inl h1
    · right; simp [h1]

theorem processFiles_all_skip (env : RemoteEnv) (kbId : String)
    (existing : Listing) (fs : List FileInfo) (cc : CollectionCache)
    (post : Listing)
    (h : ∀ f ∈ fs, skipCond false cc existing f = true) :
    processFiles env kbId false false existing cc post fs =
      ⟨cc, post, 0, 0, [], true⟩ := by
  induction fs with
  | nil => rfl
  | cons g gs ih =>
    dsimp only [processFiles]
    rw [processFile_skip env kbId false false existing cc post g
      (h g (List.mem_cons_self g gs))]
    rw [ih (fun f hf => h f (List.mem_cons_of_mem _ hf))]
    rfl

theorem removalScan_post_none_mono (env : RemoteEnv) (kbId : String)
    (dryRun : Bool) (synced : List String) (entries : Listing)
    (cc : CollectionCache) (post : Listing) (n : String)
    (h : alLookup post n = none) :
    alLookup (removalScan env kbId dryRun synced cc post entries).post n =
      none := by
  induction entries generalizing cc post with
  | nil => simpa [removalScan]
  | cons p rest ih =>
    obtain ⟨m, g⟩ := p
    dsimp only [removalScan]
    by_cases hms : m ∈ synced
    · rw [if_pos hms]; exact ih cc post h
    · rw [if_neg hms]
      dsimp only
      apply ih
      by_cases hd : (!dryRun && env.detachResult g) = true
      · rw [if_pos hd, alLookup_alErase]
        by_cases hnm : n = m
        · rw [if_pos hnm]
        · rw [if_neg hnm]; exact h
      · rw [if_neg hd]; exact h

theorem removalScan_cc_none_mono (env : RemoteEnv) (kbId : String)
    (dryRun : Bool) (synced : List String) (entries : Listing)
    (cc : CollectionCache) (post : Listing) (n : String)
    (h : alLookup cc n = none) :
    alLookup (removalScan env kbId dryRun synced cc post entries).cc n =
      none := by
  induction entries generalizing cc post with
  | nil => simpa [removalScan]
  | cons p rest ih =>
    obtain ⟨m, g⟩ := p
    dsimp only [removalScan]
    by_cases hms : m ∈ synced
    · rw [if_pos hms]; exact ih cc post h
    · rw [if_neg hms]
      dsimp only
      apply ih
      rw [alLookup_alErase]
      by_cases hnm : n = m
      · rw [if_pos hnm]
      · rw [if_neg hnm]; exact h

theorem removalScan_erases_post (env : RemoteEnv) (kbId : String)
    (synced : List String) (entries : Listing) (cc : CollectionCache)
    (post : Listing) (n fid : String)
    (hmem : (n, fid) ∈ entries) (hn : n ∉ synced)
    (hok : (removalScan env kbId false synced cc post entries).ok = true) :
    alLookup (removalScan env kbId false synced cc post entries).post n =
      none := by
  induction entries generalizing cc post with
  | nil => cases hmem
  | cons p rest ih =>
    obtain ⟨m, g⟩ := p
    dsimp only [removalScan] at hok ⊢
    by_cases hms : m ∈ synced
    · rw [if_pos hms] at hok ⊢
      rcases List.mem_cons.mp hmem with h1 | h1
      · cases h1; exact absurd hms hn
      · exact ih cc post h1 hok
    · rw [if_neg hms] at hok ⊢
      dsimp only at hok ⊢
      rw [Bool.and_eq_true] at hok
      obtain ⟨hdet, hrok⟩ := hok
      rcases List.mem_cons.mp hmem with h1 | h1
      · cases h1
        have hdet' : env.detachResult fid = true := by
          simpa using hdet
        apply removalScan_post_none_mono
        rw [if_pos (by simp [hdet'])]
        rw [alLookup_alErase, if_pos rfl]
      · exact ih _ _ h1 hrok

theorem removalScan_erases_cc (env : RemoteEnv) (kbId : String)
    (dryRun : Bool) (synced : List String) (entries : Listing)
    (cc : CollectionCache) (post : Listing) (n fid : String)
    (hmem : (n, fid) ∈ entries) (hn : n ∉ synced) :
    alLookup (removalScan env kbId dryRun synced cc post entries).cc n =
      none := by
  induction entries generalizing cc post with
  | nil => cases hmem
  | cons p rest ih =>
    obtain ⟨m, g⟩ := p
    dsimp only [removalScan]
    by_cases hms : m ∈ synced
    · rw [if_pos hms]
      rcases List.mem_cons.mp hmem with h1 | h1
      · cases h1; exact absurd hms hn
      · exact ih cc post h1
    · rw [if_neg hms]
      dsimp only
      rcases List.mem_cons.mp hmem with h1 | h1
      · cases h1
        apply removalScan_cc_none_mono
        rw [alLookup_alErase, if_pos rfl]
      · exact ih _ _ h1

theorem removalScan_cc_pres (env : RemoteEnv) (kbId : String)
    (dryRun : Bool) (synced : List String) (entries : Listing)
    (cc : CollectionCache) (post : Listing) (n : String) (hn : n ∈ synced) :
    alLookup (removalScan env kbId dryRun synced cc post entries).cc n =
      alLookup cc n := by
  induction entries generalizing cc post with
  | nil => simp [removalScan]
  | cons p rest ih =>
    obtain ⟨m, g⟩ := p
    dsimp only [removalScan]
    by_cases hms : m ∈ synced
    · rw [if_pos hms]; exact ih cc post
    · rw [if_neg hms]
      dsimp only
      rw [ih _ _, alLookup_alErase,
        if_neg (fun hh : n = m => hms (hh ▸ hn))]

theorem removalScan_post_pres (env : RemoteEnv) (kbId : String)
    (dryRun : Bool) (synced : List String) (entries : Listing)
    (cc : CollectionCache) (post : Listing) (n : String) (hn : n ∈ synced) :
    alLookup (removalScan env kbId dryRun synced cc post entries).post n =
      alLookup post n := by
  induction entries generalizing cc post with
  | nil => simp [removalScan]
  | cons p rest ih =>
    obtain ⟨m, g⟩ := p
    dsimp only [removalScan]
    by_cases hms : m ∈ synced
    · rw [if_pos hms]; exact ih cc post
    · rw [if_neg hms]
      dsimp only
      rw [ih _ _]
      by_cases hd : (!dryRun && env.detachResult g) = true
      · rw [if_pos hd, alLookup_alErase,
          if_neg (fun hh : n = m => hms (hh ▸ hn))]
      · rw [if_neg hd]

theorem removalScan_all_synced (env : RemoteEnv) (kbId : String)
    (dryRun : Bool) (synced : List String) (entries : Listing)
    (cc : CollectionCache) (post : Listing)
    (h : ∀ p ∈ entries, p.1 ∈ synced) :
    removalScan env kbId dryRun synced cc post entries =
      ⟨cc, post, 0, [], true⟩ := by
  induction entries with
  | nil => rfl
  | cons p rest ih =>
    obtain ⟨m, g⟩ := p
    dsimp only [removalScan]
    rw [if_pos (h (m, g) (List.mem_cons_self _ _))]
    exact ih (fun q hq => h q (List.mem_cons_of_mem _ hq))

theorem removalScan_cc_writes (env : RemoteEnv) (kbId : String)
    (dryRun : Bool) (synced : List String) (entries : Listing)
    (cc : CollectionCache) (post : Listing) (n : String) (e : CacheEntry)
    (h : alLookup (removalScan env kbId dryRun synced cc post entries).cc n =
      some e) :
    alLookup cc n = some e := by
  induction entries generalizing cc post with
  | nil => simpa [removalScan] using h
  | cons p rest ih =>
    obtain ⟨m, g⟩ := p
    dsimp only [removalScan] at h
    by_cases hms : m ∈ synced
    · rw [if_pos hms] at h; exact ih cc post h
    · rw [if_neg hms] at h
      dsimp only at h
      have h2 := ih _ _ h
      rw [alLookup_alErase] at h2
      by_cases hnm : n = m
      · rw [if_pos hnm] at h2; cases h2
      · rw [if_neg hnm] at h2; exact h2

theorem removalScan_removed_count (env : RemoteEnv) (kbId : String)
    (dryRun : Bool) (synced : List String) (entries : Listing)
    (cc : CollectionCache) (post : Listing) :
    (removalScan env kbId dryRun synced cc post entries).removed =
      (entries.filter (fun p => !decide (p.1 ∈ synced))).length := by
  induction entries generalizing cc post with
  | nil => rfl
  | cons p rest ih =>
    obtain ⟨m, g⟩ := p
    dsimp only [removalScan]
    by_cases hms : m ∈ synced
    · rw [if_pos hms]
      rw [ih cc post]
      simp [List.filter, hms]
    · rw [if_neg hms]
      dsimp only
      rw [ih _ _]
      simp only [List.filter, hms]
      simp [Nat.add_comm]

theorem removalScan_detach_mem (env : RemoteEnv) (kbId : String)
    (synced : List String) (entries : Listing) (cc : CollectionCache)
    (post : Listing) (n fid : String)
    (hmem : (n, fid) ∈ entries) (hn : n ∉ synced) :
    RemoteOp.detach kbId fid ∈
      (removalScan env kbId false synced cc post entries).ops := by
  induction entries generalizing cc post with
  | nil => cases hmem
  | cons p rest ih =>
    obtain ⟨m, g⟩ := p
    dsimp only [removalScan]
    by_cases hms : m ∈ synced
    · rw [if_pos hms]
      rcases List.mem_cons.mp hmem with h1 | h1
      · cases h1; exact absurd hms hn
      · exact ih cc post h1
    · rw [if_neg hms]
      dsimp only
      rcases List.mem_cons.mp hmem with h1 | h1
      · cases h1
        exact List.mem_append.mpr (Or.inl (by simp))
      · exact List.mem_append.mpr (Or.inr (ih _ _ h1))

theorem processFiles_cc_writes (env : RemoteEnv) (kbId : String)
    (force dryRun : Bool) (existing : Listing) (fs : List FileInfo)
    (cc : CollectionCache) (post : Listing) (n : String) (e : CacheEntry)
    (h : alLookup (processFiles env kbId force dryRun existing cc post
      fs).cc n = some e) :
    alLookup cc n = some e ∨
    ∃ f ∈ fs, f.name = n ∧ e.hash = f.fileHash ∧
      env.uploadResult f.name = some e.file_id ∧ e.file_id ≠ "" ∧
      attachOk env e.file_id (some f.contentHash) = true := by
  induction fs generalizing cc post with
  | nil => dsimp only [processFiles] at h; exact Or.inl h
  | cons g gs ih =>
    dsimp only [processFiles] at h
    rcases ih _ _ h with h1 | ⟨f, hf, hrest⟩
    · rcases processFile_shape env kbId force dryRun existing cc post g with
        ⟨h2, _⟩ | ⟨fid, hup, hfid, hatt, h2, _⟩
      · rw [h2] at h1; exact Or.inl h1
      · rw [h2, alLookup_alInsert] at h1
        by_cases hng : n = g.name
        · rw [if_pos hng] at h1
          injection h1 with h1e
          subst h1e
          exact Or.inr ⟨g, List.mem_cons_self g gs, hng.symm, rfl, hup, hfid,
            hatt⟩
        · rw [if_neg hng] at h1; exact Or.inl h1
    · exact Or.inr ⟨f, List.mem_cons_of_mem _ hf, hrest⟩

theorem syncBody_cache_writes (env : RemoteEnv) (name kbId : String)
    (files : List FileInfo) (cache : Cache) (force dryRun : Bool)
    (n : String) (e : CacheEntry)
    (h : alLookup ((alLookup (syncBody env name kbId files cache force
      dryRun).cache name).getD []) n = some e) :
    alLookup ((alLookup cache name).getD []) n = some e ∨
    ∃ f ∈ files, f.name = n ∧ e.hash = f.fileHash ∧
      env.uploadResult f.name = some e.file_id ∧ e.file_id ≠ "" ∧
      attachOk env e.file_id (some f.contentHash) = true := by
  dsimp only [syncBody] at h
  rw [alLookup_alInsert, if_pos rfl] at h
  simp only [Option.getD_some] at h
  have h2 := removalScan_cc_writes _ _ _ _ _ _ _ _ _ h
  exact processFiles_cc_writes _ _ _ _ _ _ _ _ _ _ h2

theorem syncBody_goodEntries (env : RemoteEnv) (name kbId : String)
    (files : List FileInfo) (cache : Cache)
    (hname : nameConsistent files)
    (hok : (syncBody env name kbId files cache false false).ok = true) :
    (∀ f ∈ files, goodEntry
      ((alLookup (syncBody env name kbId files cache false false).cache
        name).getD [])
      (syncBody env name kbId files cache false false).post f) ∧
    (∀ p ∈ (syncBody env name kbId files cache false false).post,
      p.1 ∈ files.map (·.name)) := by
  dsimp only [syncBody] at hok ⊢
  rw [if_neg Bool.false_eq_true_eq_False] at hok ⊢
  rw [Bool.and_eq_true] at hok
  obtain ⟨hok1, hok2⟩ := hok
  rw [alLookup_alInsert, if_pos rfl]
  simp only [Option.getD_some]
  constructor
  · intro f hf
    have hg := processFiles_goodEntry env kbId false env.listing files
      ((alLookup cache name).getD []) env.listing (fun n hn => hn) hok1 hname
      f hf
    obtain ⟨⟨e, he, heh, hei⟩, hpost⟩ := hg
    have hmemname : f.name ∈ files.map (·.name) :=
      List.mem_map.mpr ⟨f, hf, rfl⟩
    constructor
    · refine ⟨e, ?_, heh, hei⟩
      rw [removalScan_cc_pres env kbId false _ _ _ _ _ hmemname]
      exact he
    · rw [removalScan_post_pres env kbId false _ _ _ _ _ hmemname]
      exact hpost
  · intro p hp
    by_contra hns
    have hsome : (alLookup (removalScan env kbId false
        (files.map (·.name))
        (processFiles env kbId false false env.listing
          ((alLookup cache name).getD []) env.listing files).cc
        (processFiles env kbId false false env.listing
          ((alLookup cache name).getD []) env.listing files).post
        env.listing).post p.1).isSome = true := by
      apply alLookup_isSome_of_mem (v := p.2)
      simpa using hp
    rcases hpp : alLookup (processFiles env kbId false false env.listing
        ((alLookup cache name).getD []) env.listing files).post p.1 with
      _ | w
    · rw [removalScan_post_none_mono env kbId false _ _ _ _ _ hpp] at hsome
      simp at hsome
    · have hks := processFiles_post_keys env kbId false false env.listing
        files _ _ p.1 (by rw [hpp]; rfl)
      rcases hks with hls | hmn
      · obtain ⟨v, hv⟩ := mem_of_alLookup_isSome hls
        rw [removalScan_erases_post env kbId (files.map (·.name))
          env.listing _ _ p.1 v hv hns hok2] at hsome
        simp at hsome
      · exact hns hmn

theorem syncCollectionResolved_live_shape (env : RemoteEnv) (name : String)
    (files : List FileInfo) (cache : Cache) (force : Bool)
    (hne : files ≠ [])
    (hok : (syncCollectionResolved env name files cache force false).ok =
      true) :
    ∃ kbId,
      (syncCollectionResolved env name files cache force false).cache =
        (syncBody env name kbId files cache force false).cache ∧
      (syncCollectionResolved env name files cache force false).post =
        (syncBody env name kbId files cache force false).post ∧
      (syncCollectionResolved env name files cache force false).ok =
        (syncBody env name kbId files cache force false).ok := by
  rw [syncCollectionResolved] at hok ⊢
  rw [if_neg (by simpa using hne)] at hok ⊢
  by_cases hkb : pyTruthy (alLookup env.collections name) = true
  · rw [if_pos hkb] at hok ⊢
    exact ⟨(alLookup env.collections name).getD "", rfl, rfl, rfl⟩
  · rw [if_neg hkb] at hok ⊢
    rw [if_neg (by simp : ¬(false = true))] at hok ⊢
    by_cases hcr : pyTruthy env.createResult = true
    · rw [if_pos hcr] at hok ⊢
      exact ⟨env.createResult.getD "", rfl, rfl, rfl⟩
    · rw [if_neg hcr] at hok
      simp at hok

theorem syncBody_all_skip_ops (env : RemoteEnv) (name kbId : String)
    (files : List FileInfo) (cache : Cache)
    (hskip : ∀ f ∈ files, skipCond false ((alLookup cache name).getD [])
      env.listing f = true)
    (hsync : ∀ p ∈ env.listing, p.1 ∈ files.map (·.name)) :
    (syncBody env name kbId files cache false false).ops = [] := by
  dsimp only [syncBody]
  rw [if_neg Bool.false_eq_true_eq_False]
  rw [processFiles_all_skip env kbId env.listing files _ _ hskip]
  rw [removalScan_all_synced env kbId false _ _ _ _ hsync]
  rfl

theorem processFile_dry_empty (env : RemoteEnv) (kbId : String)
    (force : Bool) (cc : CollectionCache) (post : Listing) (f : FileInfo) :
    processFile env kbId force true [] cc post f =
      ⟨cc, post, 1, 0, [], true⟩ := by
  have hs : skipCond force cc [] f = false := by
    simp [skipCond, alLookup]
  rw [processFile, if_neg (by simp [hs]), if_pos rfl,
    if_neg (by simp [alLookup])]

theorem processFiles_dry (env : RemoteEnv) (kbId : String) (force : Bool)
    (fs : List FileInfo) (cc : CollectionCache) (post : Listing) :
    processFiles env kbId force true [] cc post fs =
      ⟨cc, post, fs.length, 0, [], true⟩ := by
  induction fs generalizing cc post with
  | nil => rfl
  | cons f fs ih =>
    dsimp only [processFiles]
    rw [processFile_dry_empty, ih]
    simp [Nat.add_comm]

theorem syncBody_dry (env : RemoteEnv) (name kbId : String)
    (files : List FileInfo) (cache : Cache) (force : Bool) :
    (syncBody env name kbId files cache force true).ops = [] ∧
    (syncBody env name kbId files cache force true).persisted = false ∧
    (syncBody env name kbId files cache force true).added = files.length ∧
    (syncBody env name kbId files cache force true).updated = 0 ∧
    (syncBody env name kbId files cache force true).removed = 0 := by
  dsimp only [syncBody]
  rw [if_pos rfl, processFiles_dry]
  exact ⟨rfl, rfl, rfl, rfl, rfl⟩

theorem processFile_live_ops (env : RemoteEnv) (kbId : String)
    (force : Bool) (existing : Listing) (cc : CollectionCache)
    (post : Listing) (f : FileInfo)
    (hs : skipCond force cc existing f = false) :
    ∃ l, (processFile env kbId force false existing cc post f).ops =
      RemoteOp.purge f.contentHash :: l := by
  rw [processFile, if_neg (by simp [hs]), if_neg (by simp : ¬(false = true))]
  rcases hup : env.uploadResult f.name with _ | fid
  · exact ⟨[RemoteOp.upload f.name], rfl⟩
  · dsimp only
    by_cases hemp : fid.isEmpty = true
    · rw [if_pos hemp]; exact ⟨[RemoteOp.upload f.name], rfl⟩
    · rw [if_neg hemp]
      by_cases har :
        (addFileToKnowledge env kbId fid (some f.contentHash)).1 = true
      · rw [if_pos har]
        by_cases hm : (alLookup existing f.name).isSome = true
        · rw [if_pos hm]; exact ⟨_, rfl⟩
        · rw [if_neg hm]; exact ⟨_, rfl⟩
      · rw [if_neg har]; exact ⟨_, rfl⟩

theorem parseDefinition_foldl_append (env : ParseEnv) (lines : List String)
    (acc : List String) :
    lines.foldl
      (fun acc line =>
        if line.isEmpty || startsWithHash line then acc
        else acc ++ resolvePath env line) acc =
    acc ++ (lines.filter
      (fun l => !(l.isEmpty || startsWithHash l))).flatMap (resolvePath env) := by
  induction lines generalizing acc with
  | nil => simp
  | cons l ls ih =>
    by_cases hc : (l.isEmpty || startsWithHash l) = true
    · simp only [List.foldl, if_pos hc, List.filter, hc]
      simpa using ih acc
    · simp only [List.foldl, if_neg (by simp [hc] : ¬(l.isEmpty ||
        startsWithHash l) = true), List.filter, hc]
      rw [ih]
      simp [List.append_assoc]

/-- C1 (counterexample): on the fixture `envA`/`cacheA`/`fA` — one resolved
file, fully cached and listed remotely — the live run reports `(0,0,0)` (it
skips the file) while the dry run reports `(1,0,0)`, because line 338 gives
the dry run an empty listing snapshot, so the skip condition can never hold
there; dry-run counts are therefore not identical to live counts. -/
theorem dry_run_counts_differ :
    (syncCollectionResolved envA "col" [fA] cacheA false false).added = 0 ∧
    (syncCollectionResolved envA "col" [fA] cacheA false false).updated = 0 ∧
    (syncCollectionResolved envA "col" [fA] cacheA false false).removed = 0 ∧
    (syncCollectionResolved envA "col" [fA] cacheA false true).added = 1 ∧
    (syncCollectionResolved envA "col" [fA] cacheA false true).added ≠
      (syncCollectionResolved envA "col" [fA] cacheA false false).added := by
  refine ⟨rfl, rfl, rfl, rfl, ?_⟩
  decide

/-- C1 (amended): a dry run issues no remote mutation at all (no create,
upload, attach, detach or purge) and never persists the cache file; but its
counts are always `(number of resolved files, 0, 0)` — every resolved file is
counted as an addition against the empty listing snapshot and the removal
scan sees no listed files — so they can differ from a live run's counts. -/
theorem dry_run_no_mutation (env : RemoteEnv) (name : String)
    (files : List FileInfo) (cache : Cache) (force : Bool) :
    (syncCollectionResolved env name files cache force true).ops = [] ∧
    (syncCollectionResolved env name files cache force true).persisted =
      false ∧
    (syncCollectionResolved env name files cache force true).added =
      files.length ∧
    (syncCollectionResolved env name files cache force true).updated = 0 ∧
    (syncCollectionResolved env name files cache force true).removed = 0 := by
  rw [syncCollectionResolved]
  by_cases hfe : files.isEmpty = true
  · rw [if_pos hfe]
    have : files = [] := by simpa [List.isEmpty_iff] using hfe
    subst this
    exact ⟨rfl, rfl, rfl, rfl, rfl⟩
  · rw [if_neg hfe]
    dsimp only
    by_cases hkb : pyTruthy (alLookup env.collections name) = true
    · rw [if_pos hkb]
      exact syncBody_dry env name _ files cache force
    · rw [if_neg hkb, if_pos rfl]
      exact syncBody_dry env name _ files cache force

/-- C3 (counterexample): on `envC3`/`cacheC3`, the stale remote file
`gone.md` is counted as removed and its cache entry is deleted even though
the detach call fails (`detachResult "fidg" = false`); the cache deletion is
not conditional on the remote removal succeeding, because line 400 ignores
the return value of `_remove_file_from_knowledge`. -/
theorem removal_deletes_cache_despite_failure :
    envC3.detachResult "fidg" = false ∧
    RemoteOp.detach "kb1" "fidg" ∈
      (syncCollectionResolved envC3 "col" [fA] cacheC3 false false).ops ∧
    alLookup ((alLookup (syncCollectionResolved envC3 "col" [fA] cacheC3
      false false).cache "col").getD []) "gone.md" = none ∧
    alLookup ((alLookup cacheC3 "col").getD []) "gone.md" =
      some ⟨"hg", "fidg"⟩ ∧
    (syncCollectionResolved envC3 "col" [fA] cacheC3 false false).removed =
      1 := by
  refine ⟨rfl, ?_, rfl, rfl, rfl⟩
  decide

/-- C3 (amended): in a live pass over a nonempty resolved set whose
collection is present remotely, every file name in the remote listing that
is absent from the resolved set is detached and its cache entry is deleted
unconditionally — whether or not the detach call succeeds — and the removed
count equals exactly the number of such file names. -/
theorem removal_scan_spec (env : RemoteEnv) (name : String)
    (files : List FileInfo) (cache : Cache) (force : Bool)
    (hne : files ≠ [])
    (hkb : pyTruthy (alLookup env.collections name) = true) :
    (syncCollectionResolved env name files cache force false).removed =
      (env.listing.filter
        (fun p => !decide (p.1 ∈ files.map (·.name)))).length ∧
    ∀ n fid, (n, fid) ∈ env.listing → n ∉ files.map (·.name) →
      RemoteOp.detach ((alLookup env.collections name).getD "") fid ∈
        (syncCollectionResolved env name files cache force false).ops ∧
      alLookup ((alLookup (syncCollectionResolved env name files cache
        force false).cache name).getD []) n = none := by
  rw [syncCollectionResolved,
    if_neg (by simpa [List.isEmpty_iff] using hne)]
  dsimp only
  rw [if_pos hkb]
  dsimp only [syncBody]
  rw [if_neg Bool.false_eq_true_eq_False]
  constructor
  · exact removalScan_removed_count _ _ _ _ _ _ _
  · intro n fid hmem hns
    constructor
    · exact List.mem_append.mpr (Or.inr
        (removalScan_detach_mem _ _ _ _ _ _ _ _ hmem hns))
    · rw [alLookup_alInsert, if_pos rfl]
      simp only [Option.getD_some]
      exact removalScan_erases_cc _ _ _ _ _ _ _ _ _ hmem hns

/-- C3 (amended) witness: the amended removal-scan statement instantiated on
the `envC3` fixture. -/
theorem removal_scan_spec_witness :
    ([fA] ≠ []) ∧
    pyTruthy (alLookup envC3.collections "col") = true ∧
    ((syncCollectionResolved envC3 "col" [fA] cacheC3 false false).removed =
      (envC3.listing.filter
        (fun p => !decide (p.1 ∈ [fA].map (·.name)))).length ∧
    ∀ n fid, (n, fid) ∈ envC3.listing → n ∉ [fA].map (·.name) →
      RemoteOp.detach ((alLookup envC3.collections "col").getD "") fid ∈
        (syncCollectionResolved envC3 "col" [fA] cacheC3 false false).ops ∧
      alLookup ((alLookup (syncCollectionResolved envC3 "col" [fA] cacheC3
        false false).cache "col").getD []) n = none) :=
  ⟨by decide, by decide,
    removal_scan_spec envC3 "col" [fA] cacheC3 false (by decide) (by decide)⟩

/-- C4: in a live pass, a resolved file is skipped — no remote operation is
issued for it and the collection cache is left unchanged — if and only if
all four conditions hold: force is off, the cached hash equals the file's
current hash, a (truthy) cached remote identifier exists, and the listing
snapshot contains the file name. -/
theorem skip_iff_four_conditions (env : RemoteEnv) (kbId : String)
    (force : Bool) (existing : Listing) (cc : CollectionCache)
    (post : Listing) (f : FileInfo) :
    ((processFile env kbId force false existing cc post f).ops = [] ∧
     (processFile env kbId force false existing cc post f).cc = cc ∧
     (processFile env kbId force false existing cc post f).added = 0 ∧
     (processFile env kbId force false existing cc post f).updated = 0) ↔
      (force = false ∧
       (∃ e, alLookup cc f.name = some e ∧ e.hash = f.fileHash ∧
         e.file_id ≠ "") ∧
       (alLookup existing f.name).isSome = true) := by
  constructor
  · rintro ⟨hops, -, -, -⟩
    by_cases hs : skipCond force cc existing f = true
    · exact (skipCond_iff force cc existing f).mp hs
    · exfalso
      obtain ⟨l, hl⟩ := processFile_live_ops env kbId force existing cc post
        f (Bool.eq_false_iff.mpr hs)
      rw [hops] at hl
      cases hl
  · intro hconds
    rw [processFile_skip env kbId force false existing cc post f
      ((skipCond_iff force cc existing f).mpr hconds)]
    exact ⟨rfl, rfl, rfl, rfl⟩

/-- C5: when the first attach of an uploaded file reports duplicate content,
the engine purges the content hash's duplicate vectors and retries the
attach exactly once (trace: pre-purge, upload, attach, purge, attach); if
the retry succeeds the file is counted once and its cache entry records the
new remote identifier, and if the retry fails — or the attach error is not
the duplicate-content condition — no count is taken and the cache is left
unchanged (the per-file loop then simply continues, `processFiles` being
structurally a fold over the remaining files). -/
theorem duplicate_recovery (env : RemoteEnv) (kbId : String) (force : Bool)
    (existing : Listing) (cc : CollectionCache) (post : Listing)
    (f : FileInfo) (fid : String)
    (hs : skipCond force cc existing f = false)
    (hup : env.uploadResult f.name = some fid)
    (hfid : fid.isEmpty = false)
    (hch : f.contentHash.isEmpty = false) :
    (env.attachFirst fid = AttachOutcome.duplicate →
      (processFile env kbId force false existing cc post f).ops =
        [RemoteOp.purge f.contentHash, RemoteOp.upload f.name,
         RemoteOp.attach kbId fid, RemoteOp.purge f.contentHash,
         RemoteOp.attach kbId fid] ∧
      (env.attachRetry fid = true →
        alLookup (processFile env kbId force false existing cc post f).cc
          f.name = some ⟨f.fileHash, fid⟩ ∧
        (processFile env kbId force false existing cc post f).added +
          (processFile env kbId force false existing cc post f).updated =
          1) ∧
      (env.attachRetry fid = false →
        (processFile env kbId force false existing cc post f).cc = cc ∧
        (processFile env kbId force false existing cc post f).added = 0 ∧
        (processFile env kbId force false existing cc post f).updated =
          0)) ∧
    (env.attachFirst fid = AttachOutcome.otherError →
      (processFile env kbId force false existing cc post f).cc = cc ∧
      (processFile env kbId force false existing cc post f).added = 0 ∧
      (processFile env kbId force false existing cc post f).updated = 0 ∧
      (processFile env kbId force false existing cc post f).ops =
        [RemoteOp.purge f.contentHash, RemoteOp.upload f.name,
         RemoteOp.attach kbId fid]) := by
  rw [processFile, if_neg (by simp [hs]), if_neg (by simp : ¬(false = true)),
    hup]
  dsimp only
  rw [if_neg (by simp [hfid])]
  constructor
  · intro hdup
    have har : addFileToKnowledge env kbId fid (some f.contentHash) =
        (env.attachRetry fid,
          [RemoteOp.attach kbId fid, RemoteOp.purge f.contentHash,
           RemoteOp.attach kbId fid]) := by
      rw [addFileToKnowledge, hdup]
      dsimp only [clearQdrantDuplicates]
      rw [if_neg (by simp [hch])]
      rfl
    rw [har]
    by_cases hr : env.attachRetry fid = true
    · rw [if_pos (by rw [hr])]
      by_cases hm : (alLookup existing f.name).isSome = true
      · rw [if_pos hm]
        refine ⟨rfl, fun _ => ⟨?_, rfl⟩, fun hneg => ?_⟩
        · exact (alLookup_alInsert cc f.name f.name _).trans (if_pos rfl)
        · rw [hr] at hneg; cases hneg
      · rw [if_neg hm]
        refine ⟨rfl, fun _ => ⟨?_, rfl⟩, fun hneg => ?_⟩
        · exact (alLookup_alInsert cc f.name f.name _).trans (if_pos rfl)
        · rw [hr] at hneg; cases hneg
    · have hr' : env.attachRetry fid = false := Bool.eq_false_iff.mpr hr
      rw [if_neg (by rw [hr']; simp)]
      refine ⟨rfl, fun htr => absurd htr hr, fun _ => ⟨rfl, rfl, rfl⟩⟩
  · intro hoth
    have har : addFileToKnowledge env kbId fid (some f.contentHash) =
        (false, [RemoteOp.attach kbId fid]) := by
      rw [addFileToKnowledge, hoth]
    rw [har]
    rw [if_neg (by simp)]
    exact ⟨rfl, rfl, rfl, rfl⟩

/-- C5 witness: the duplicate-recovery statement instantiated on the `envD`
fixture, whose first attach reports duplicate content and whose retry
succeeds. -/
theorem duplicate_recovery_witness :
    skipCond false [] [] f1B = false ∧
    envD.uploadResult "a.md" = some "fidA" ∧
    envD.attachFirst "fidA" = AttachOutcome.duplicate ∧
    envD.attachRetry "fidA" = true ∧
    ((envD.attachFirst "fidA" = AttachOutcome.duplicate →
      (processFile envD "kb1" false false [] [] [] f1B).ops =
        [RemoteOp.purge f1B.contentHash, RemoteOp.upload f1B.name,
         RemoteOp.attach "kb1" "fidA", RemoteOp.purge f1B.contentHash,
         RemoteOp.attach "kb1" "fidA"] ∧
      (envD.attachRetry "fidA" = true →
        alLookup (processFile envD "kb1" false false [] [] [] f1B).cc
          f1B.name = some ⟨f1B.fileHash, "fidA"⟩ ∧
        (processFile envD "kb1" false false [] [] [] f1B).added +
          (processFile envD "kb1" false false [] [] [] f1B).updated = 1) ∧
      (envD.attachRetry "fidA" = false →
        (processFile envD "kb1" false false [] [] [] f1B).cc = [] ∧
        (processFile envD "kb1" false false [] [] [] f1B).added = 0 ∧
        (processFile envD "kb1" false false [] [] [] f1B).updated = 0)) ∧
    (envD.attachFirst "fidA" = AttachOutcome.otherError →
      (processFile envD "kb1" false false [] [] [] f1B).cc = [] ∧
      (processFile envD "kb1" false false [] [] [] f1B).added = 0 ∧
      (processFile envD "kb1" false false [] [] [] f1B).updated = 0 ∧
      (processFile envD "kb1" false false [] [] [] f1B).ops =
        [RemoteOp.purge f1B.contentHash, RemoteOp.upload f1B.name,
         RemoteOp.attach "kb1" "fidA"])) :=
  ⟨by decide, rfl, rfl, rfl,
    duplicate_recovery envD "kb1" false [] [] [] f1B "fidA" (by decide) rfl
      (by decide) (by decide)⟩

/-- C2 (counterexample): two resolved files share the file name `a.md` with
different content hashes (the spec's acknowledged name-collision case).  The
first live run on `envB` completes with every operation succeeding, the
remote and filesystem are unchanged afterwards (`envB2` equals `envB` with
the post-run listing), yet the second run still issues remote mutations:
each file's pass overwrites the shared cache entry with its own hash, so the
other file can never satisfy the skip condition. -/
theorem second_run_mutates :
    (syncCollectionResolved envB "col" [f1B, f2B] [] false false).ok =
      true ∧
    envB2.listing =
      (syncCollectionResolved envB "col" [f1B, f2B] [] false false).post ∧
    envB2.collections = envB.collections ∧
    (syncCollectionResolved envB2 "col" [f1B, f2B]
      (syncCollectionResolved envB "col" [f1B, f2B] [] false false).cache
      false false).ops ≠ [] := by
  refine ⟨rfl, rfl, rfl, ?_⟩
  decide

/-- C2 (amended): provided no two resolved files share a file name while
disagreeing on content hash, a live reconciliation run that completed with
every per-file action and every detach succeeding is idempotent: a second
live run against the unchanged filesystem (same resolved list), the
unchanged remote (the collection still listed, the file listing exactly as
the first run left it) and the first run's cache issues zero remote
mutations — every resolved file satisfies the skip condition and the
removal scan detaches nothing. -/
theorem second_run_no_mutations (env1 env2 : RemoteEnv) (name : String)
    (files : List FileInfo) (cache : Cache)
    (hname : nameConsistent files)
    (hok : (syncCollectionResolved env1 name files cache false false).ok =
      true)
    (hkb : pyTruthy (alLookup env2.collections name) = true)
    (hlist : env2.listing =
      (syncCollectionResolved env1 name files cache false false).post) :
    (syncCollectionResolved env2 name files
      (syncCollectionResolved env1 name files cache false false).cache
      false false).ops = [] := by
  by_cases hfe : files = []
  · subst hfe
    rfl
  · obtain ⟨kbId, hcache, hpost, hokeq⟩ :=
      syncCollectionResolved_live_shape env1 name files cache false hfe hok
    rw [hokeq] at hok
    obtain ⟨hgoods, hkeys⟩ :=
      syncBody_goodEntries env1 name kbId files cache hname hok
    rw [syncCollectionResolved,
      if_neg (by simpa [List.isEmpty_iff] using hfe)]
    dsimp only
    rw [if_pos hkb]
    apply syncBody_all_skip_ops
    · intro f hf
      rw [hcache, hlist, hpost]
      apply (skipCond_iff _ _ _ _).mpr
      obtain ⟨hentry, hpostmem⟩ := hgoods f hf
      exact ⟨rfl, hentry, hpostmem⟩
    · intro p hp
      rw [hlist, hpost] at hp
      exact hkeys p hp

/-- C2 (amended) witness: the idempotence statement instantiated on the
`envA` fixture, where the first run skips everything and the second run is
on identical state. -/
theorem second_run_no_mutations_witness :
    nameConsistent [fA] ∧
    (syncCollectionResolved envA "col" [fA] cacheA false false).ok = true ∧
    pyTruthy (alLookup envA.collections "col") = true ∧
    envA.listing =
      (syncCollectionResolved envA "col" [fA] cacheA false false).post ∧
    (syncCollectionResolved envA "col" [fA]
      (syncCollectionResolved envA "col" [fA] cacheA false false).cache
      false false).ops = [] :=
  ⟨fun f hf g hg _ => by
      rw [List.mem_singleton] at hf hg
      rw [hf, hg],
    by decide, by decide, by decide,
    second_run_no_mutations envA envA "col" [fA] cacheA
      (fun f hf g hg _ => by
        rw [List.mem_singleton] at hf hg
        rw [hf, hg])
      (by decide) (by decide) (by decide)⟩

/-- C6: whatever entry the run leaves in the collection's cache, it is
either the entry that was already there before the run, or it belongs to a
resolved file and records exactly the remote identifier that the upload call
returned (truthy) for which the attach was confirmed (directly or through
the duplicate-content retry); cache entries are never written ahead of
remote confirmation. -/
theorem cache_write_confirmed (env : RemoteEnv) (name : String)
    (files : List FileInfo) (cache : Cache) (force dryRun : Bool)
    (n : String) (e : CacheEntry)
    (h : alLookup ((alLookup (syncCollectionResolved env name files cache
      force dryRun).cache name).getD []) n = some e) :
    alLookup ((alLookup cache name).getD []) n = some e ∨
    ∃ f ∈ files, f.name = n ∧ e.hash = f.fileHash ∧
      env.uploadResult f.name = some e.file_id ∧ e.file_id ≠ "" ∧
      attachOk env e.file_id (some f.contentHash) = true := by
  rw [syncCollectionResolved] at h
  by_cases hfe : files.isEmpty = true
  · rw [if_pos hfe] at h
    exact Or.inl h
  · rw [if_neg hfe] at h
    dsimp only at h
    by_cases hkb : pyTruthy (alLookup env.collections name) = true
    · rw [if_pos hkb] at h
      exact syncBody_cache_writes _ _ _ _ _ _ _ _ _ h
    · rw [if_neg hkb] at h
      by_cases hd : dryRun = true
      · rw [if_pos hd] at h
        exact syncBody_cache_writes _ _ _ _ _ _ _ _ _ h
      · rw [if_neg hd] at h
        by_cases hcr : pyTruthy env.createResult = true
        · rw [if_pos hcr] at h
          exact syncBody_cache_writes _ _ _ _ _ _ _ _ _ h
        · rw [if_neg hcr] at h
          exact Or.inl h

/-- C6 witness: the invariant instantiated on a run whose final cache entry
for `a.md` is the pre-existing one. -/
theorem cache_write_confirmed_witness :
    alLookup ((alLookup (syncCollectionResolved envA "col" [] cacheA false
      false).cache "col").getD []) "a.md" = some ⟨"h1", "f1"⟩ ∧
    (alLookup ((alLookup cacheA "col").getD []) "a.md" =
        some ⟨"h1", "f1"⟩ ∨
      ∃ f ∈ ([] : List FileInfo), f.name = "a.md" ∧
        (⟨"h1", "f1"⟩ : CacheEntry).hash = f.fileHash ∧
        envA.uploadResult f.name =
          some (⟨"h1", "f1"⟩ : CacheEntry).file_id ∧
        (⟨"h1", "f1"⟩ : CacheEntry).file_id ≠ "" ∧
        attachOk envA (⟨"h1", "f1"⟩ : CacheEntry).file_id
          (some f.contentHash) = true) :=
  ⟨by decide,
    cache_write_confirmed envA "col" [] cacheA false false "a.md"
      ⟨"h1", "f1"⟩ (by decide)⟩

/-- C7 (counterexample): a definition whose two references resolve to the
same file produces that file's path twice — `_parse_definition` extends the
output with every line's resolution and never deduplicates. -/
theorem parse_duplicate_output :
    parseDefinition penvX "/a/x.md\n/a/x.md" =
      ["/a/x.md", "/a/x.md"] ∧
    ¬ (parseDefinition penvX
        "/a/x.md\n/a/x.md").Nodup := by
  have h1 : parseDefinition penvX
      "/a/x.md\n/a/x.md" =
        ["/a/x.md", "/a/x.md"] := rfl
  refine ⟨h1, ?_⟩
  rw [h1]
  decide

/-- C7 (amended): the parser's output is ordered but not deduplicated: it is
exactly the in-order concatenation, over the non-empty non-comment lines, of
each line's resolved file list, so a concrete path referenced by several
resolving lines occurs once per reference. -/
theorem parse_is_concat (env : ParseEnv) (content : String) :
    parseDefinition env content =
      ((defLines content).filter
        (fun l => !(l.isEmpty || startsWithHash l))).flatMap
        (resolvePath env) := by
  unfold parseDefinition
  rw [parseDefinition_foldl_append]
  rfl

/-- C8: in a live pass over a nonempty resolved list whose collection name
is not (truthily) present in the remote collection listing, the very first
issued mutation is the collection creation; and if that creation fails, the
pass returns `(0, 0, 0)`, leaves the cache unchanged and unpersisted, and
issues no upload, attach, detach or purge call (its whole trace is the
failed creation attempt). -/
theorem bootstrap_create_first (env : RemoteEnv) (name : String)
    (files : List FileInfo) (cache : Cache) (force : Bool)
    (hne : files ≠ [])
    (hkb : pyTruthy (alLookup env.collections name) = false) :
    (∃ rest, (syncCollectionResolved env name files cache force false).ops =
      RemoteOp.createKB name :: rest) ∧
    (pyTruthy env.createResult = false →
      (syncCollectionResolved env name files cache force false).added = 0 ∧
      (syncCollectionResolved env name files cache force false).updated =
        0 ∧
      (syncCollectionResolved env name files cache force false).removed =
        0 ∧
      (syncCollectionResolved env name files cache force false).cache =
        cache ∧
      (syncCollectionResolved env name files cache force false).persisted =
        false ∧
      (syncCollectionResolved env name files cache force false).ops =
        [RemoteOp.createKB name]) := by
  rw [syncCollectionResolved,
    if_neg (by simpa [List.isEmpty_iff] using hne)]
  dsimp only
  rw [if_neg (by simp [hkb]), if_neg (by simp : ¬(false = true))]
  by_cases hcr : pyTruthy env.createResult = true
  · rw [if_pos hcr]
    refine ⟨⟨_, rfl⟩, fun hfalse => ?_⟩
    rw [hfalse] at hcr
    cases hcr
  · rw [if_neg hcr]
    exact ⟨⟨[], rfl⟩, fun _ => ⟨rfl, rfl, rfl, rfl, rfl, rfl⟩⟩

/-- C8 witness: the bootstrap statement instantiated on `envC8`, where the
collection is absent and creation fails. -/
theorem bootstrap_create_first_witness :
    ([f1B] ≠ []) ∧
    pyTruthy (alLookup envC8.collections "col") = false ∧
    pyTruthy envC8.createResult = false ∧
    ((∃ rest, (syncCollectionResolved envC8 "col" [f1B] [] false
        false).ops = RemoteOp.createKB "col" :: rest) ∧
      (pyTruthy envC8.createResult = false →
        (syncCollectionResolved envC8 "col" [f1B] [] false false).added =
          0 ∧
        (syncCollectionResolved envC8 "col" [f1B] [] false false).updated =
          0 ∧
        (syncCollectionResolved envC8 "col" [f1B] [] false false).removed =
          0 ∧
        (syncCollectionResolved envC8 "col" [f1B] [] false false).cache =
          [] ∧
        (syncCollectionResolved envC8 "col" [f1B] [] false
          false).persisted = false ∧
        (syncCollectionResolved envC8 "col" [f1B] [] false false).ops =
          [RemoteOp.createKB "col"])) :=
  ⟨by decide, by decide, by decide,
    bootstrap_create_first envC8 "col" [f1B] [] false (by decide)
      (by decide)⟩

/-- C9: cache loading is a total function — it cannot raise: when the cache
file is absent the cache starts empty (no warning); when the file is present
but reading or JSON-parsing fails, the load warns and starts with an empty
cache; and when parsing succeeds the parsed mapping is used. -/
theorem load_cache_total (rp : Except String Cache) :
    loadCache false rp = ([], false) ∧
    (∀ msg, loadCache true (Except.error msg) = ([], true)) ∧
    (∀ c, loadCache true (Except.ok c) = (c, false)) :=
  ⟨rfl, fun _ => rfl, fun _ => rfl⟩

/-- C10: a collection whose definition resolves to the empty file list is a
complete no-op: `sync_collection` returns `(0, 0, 0)` before creating any
collection, before fetching or scanning the remote listing, and without
touching or persisting the cache — the whole mutation trace is empty even
when the remote listing is nonempty. -/
theorem empty_resolution_no_op (penv : ParseEnv) (env : RemoteEnv)
    (name defText : String) (cache : Cache) (force dryRun : Bool)
    (h : parseDefinition penv defText = []) :
    syncCollection penv env name defText cache force dryRun =
      ⟨0, 0, 0, cache, [], false, env.listing, true⟩ := by
  rw [syncCollection]
  rw [h]
  rfl

/-- C10 witness: the empty-resolution statement instantiated on the `penvX`
filesystem with an empty definition document. -/
theorem empty_resolution_no_op_witness :
    parseDefinition penvX "" = [] ∧
    syncCollection penvX envA "col" "" cacheA false false =
      ⟨0, 0, 0, cacheA, [], false, envA.listing, true⟩ :=
  ⟨rfl, empty_resolution_no_op penvX envA "col" "" cacheA false false rfl⟩

end KnowledgeSync
